import Mathlib

/-!
Verification of the portfolio-manager repository (two persistence variants:
a per-tenant store `st.py` and a shared store `portfolio_manager_refactored.py`).

The Python sources are shallowly embedded below.  Conventions:

* Python functions that print an error and return `None`/`False` (or raise a
  `ValueError` that the function's own `except` clause turns into such a
  return) are modelled as total Lean functions returning `Option`/`Bool`
  results together with the unchanged state.
* The `get_db_cursor`/`user_db_cursor` context managers commit the
  transaction only when the `with`-block exits normally and roll back when an
  exception escapes the block; the embeddings below therefore return the
  *original* state on every exceptional path and the mutated state only on
  paths on which the Python block runs to completion.
* Python `re.match(r"^...$", s)` is embedded with CPython semantics: the `$`
  anchor matches at the end of the string *or just before a trailing
  newline*.  Character classes (`[A-Z]`, `\d`, `[a-zA-Z0-9_]`) are embedded
  over their ASCII ranges; `str.upper`/`str.lower` are embedded as the
  character-wise ASCII case maps (the sources only feed tickers/usernames
  through them).
* Strings are modelled through their character lists (`String.data`).
-/

/-! ### Character-level model of the Python regex character classes -/

/-- `[A-Z]` (ASCII 65–90). -/
def isUpperAZ (c : Char) : Bool := decide (65 ≤ c.toNat ∧ c.toNat ≤ 90)

/-- `[a-z]` (ASCII 97–122). -/
def isLowerAZ (c : Char) : Bool := decide (97 ≤ c.toNat ∧ c.toNat ≤ 122)

/-- `\d` (ASCII 48–57). -/
def isDigitC (c : Char) : Bool := decide (48 ≤ c.toNat ∧ c.toNat ≤ 57)

/-- An ASCII letter: lower- or upper-case. -/
def isAsciiLetter (c : Char) : Bool := isLowerAZ c || isUpperAZ c

/-- `[a-zA-Z0-9_]` as used by the username pattern. -/
def isWordC (c : Char) : Bool := isAsciiLetter c || isDigitC c || decide (c.toNat = 95)

/-- Character-wise model of Python `str.upper` on one character (ASCII). -/
def pyUpperChar (c : Char) : Char :=
  if isLowerAZ c then Char.ofNat (c.toNat - 32) else c

/-- Character-wise model of Python `str.lower` on one character (ASCII). -/
def pyLowerChar (c : Char) : Char :=
  if isUpperAZ c then Char.ofNat (c.toNat + 32) else c

/-- Python `s.upper()`. -/
def pyUpper (s : String) : String := ⟨s.data.map pyUpperChar⟩

/-- Python `s.lower()`. -/
def pyLower (s : String) : String := ⟨s.data.map pyLowerChar⟩

/-- CPython `$` (without `re.MULTILINE`): matches at the very end of the
string, or just before one final newline. -/
def pyDollar (l : List Char) : Bool := decide (l = [] ∨ l = ['\n'])

/-- `re.match(r"^[A-Z]{1,5}$", ·)` on a character list.  Since dollar
positions (`[]`/`['\n']`) can never start with an `[A-Z]` character, the
backtracking match succeeds exactly when the maximal leading `[A-Z]` run has
length 1–5 and is followed by a dollar position. -/
def reMatchTicker (l : List Char) : Bool :=
  let run := l.takeWhile isUpperAZ
  decide (1 ≤ run.length) && decide (run.length ≤ 5) && pyDollar (l.drop run.length)

/-- `re.match(r"^[a-zA-Z0-9_]{3,30}$", ·)`, same reasoning as `reMatchTicker`. -/
def reMatchUsername (l : List Char) : Bool :=
  let run := l.takeWhile isWordC
  decide (3 ≤ run.length) && decide (run.length ≤ 30) && pyDollar (l.drop run.length)

/-- `re.match(r"^\d{1,2}d$", ·)`: one or two digits, a literal `d`, then a
dollar position.  The four possible shapes are matched directly. -/
def reMatchD12 (l : List Char) : Bool :=
  match l with
  | [a, 'd'] => isDigitC a
  | [a, 'd', '\n'] => isDigitC a
  | [a, b, 'd'] => isDigitC a && isDigitC b
  | [a, b, 'd', '\n'] => isDigitC a && isDigitC b
  | _ => false

/-- After at least one digit of `\d+`: more digits, then `d`, then `$`. -/
def reMatchDPlusAfter : List Char → Bool
  | [] => false
  | c :: rest => if isDigitC c then reMatchDPlusAfter rest
                 else c = 'd' && pyDollar rest

/-- `re.match(r"^\d+d$", ·)`. -/
def reMatchDPlus (l : List Char) : Bool :=
  match l with
  | [] => false
  | c :: rest => isDigitC c && reMatchDPlusAfter rest

/-- Numeric value of a list of ASCII digit characters (most significant
first), as computed by Python `int` on a digit string. -/
def digitsToNat (l : List Char) : Nat :=
  l.foldl (fun n c => n * 10 + (c.toNat - 48)) 0

/-- Python `int(s)` restricted to the strings that reach it in
`validate_period` (slices of a `\d+d$`-shaped match: either pure digits, on
which `int` succeeds, or digits followed by a stray `d`, on which `int`
raises `ValueError`, modelled as `none`).  Sign/whitespace forms cannot occur
there. -/
def pyIntDigits (l : List Char) : Option Nat :=
  if l ≠ [] ∧ l.all isDigitC then some (digitsToNat l) else none

/-! ### Validators (identical in both variants where both define them) -/

/-- `validate_ticker` (`st.py` lines 42–45 and the refactored file lines
138–142): reject unless `ticker` is non-empty and `ticker.upper()` matches
`^[A-Z]{1,5}$`; return the upper-cased ticker. -/
def validate_ticker (s : String) : Option String :=
  if s = "" then none
  else if reMatchTicker (pyUpper s).data then some (pyUpper s) else none

/-- `validate_username`: reject unless `s` is non-empty and matches
`^[a-zA-Z0-9_]{3,30}$`; return `s.lower()`. -/
def validate_username (s : String) : Option String :=
  if s = "" then none
  else if reMatchUsername s.data then some (pyLower s) else none

/-- The fixed list `valid_periods` from `validate_period`. -/
def valid_periods : List String :=
  ["1d", "5d", "1mo", "3mo", "6mo", "1y", "2y", "5y", "10y", "ytd", "max"]

/-- `validate_period` (refactored file lines 165–181).  Python control flow:
raise unless the period is in the fixed list or matches `^\d{1,2}d$`; then,
if it matches `^\d+d$`, compute `int(period[:-1])` (which itself raises on
the trailing-newline matches, since the slice still ends in `d`) and raise
when the value exceeds 60; otherwise return the period unchanged. -/
def validate_period (s : String) : Option String :=
  let l := s.data
  if s ∈ valid_periods ∨ reMatchD12 l = true then
    if reMatchDPlus l = true then
      match pyIntDigits l.dropLast with
      | none => none
      | some days => if 60 < days then none else some s
    else some s
  else none

/-! ### Dates (`datetime.date` values and `validate_date`) -/

/-- A calendar date as produced by `datetime.strptime(s, "%Y-%m-%d").date()`. -/
structure Date where
  y : Nat
  m : Nat
  d : Nat
deriving DecidableEq

/-- Python `date` `<` (lexicographic). -/
def dateLt (a b : Date) : Bool :=
  decide (a.y < b.y ∨ (a.y = b.y ∧ (a.m < b.m ∨ (a.m = b.m ∧ a.d < b.d))))

/-- Python `date` `<=`. -/
def dateLe (a b : Date) : Bool := dateLt a b || decide (a = b)

def isLeap (y : Nat) : Bool :=
  y % 4 = 0 && (y % 100 ≠ 0 || y % 400 = 0)

def daysInMonth (y m : Nat) : Nat :=
  if m = 1 ∨ m = 3 ∨ m = 5 ∨ m = 7 ∨ m = 8 ∨ m = 10 ∨ m = 12 then 31
  else if m = 4 ∨ m = 6 ∨ m = 9 ∨ m = 11 then 30
  else if isLeap y then 29 else 28

/-- `%m-%d` tail of the `strptime` format: one or two digits, a literal `-`,
one or two digits, and nothing left over (`strptime` raises on unconverted
trailing data). -/
def parseMD (rest : List Char) : Option (Nat × Nat) :=
  let mrun := rest.takeWhile isDigitC
  if 1 ≤ mrun.length ∧ mrun.length ≤ 2 then
    match rest.drop mrun.length with
    | '-' :: rest2 =>
      let drun := rest2.takeWhile isDigitC
      if 1 ≤ drun.length ∧ drun.length ≤ 2 ∧ rest2.drop drun.length = [] then
        some (digitsToNat mrun, digitsToNat drun)
      else none
    | _ => none
  else none

/-- `validate_date` (refactored file lines 144–149):
`datetime.strptime(s, "%Y-%m-%d")` — `%Y` is exactly four digits, `%m`/`%d`
one or two — followed by `datetime`'s own range validation (year ≥ 1, month
1–12, day within the month). -/
def validate_date (s : String) : Option Date :=
  match s.data with
  | y1 :: y2 :: y3 :: y4 :: '-' :: rest =>
    if (isDigitC y1 && isDigitC y2 && isDigitC y3 && isDigitC y4) = true then
      match parseMD rest with
      | some (mv, dv) =>
        let yv := digitsToNat [y1, y2, y3, y4]
        if 1 ≤ yv ∧ 1 ≤ mv ∧ mv ≤ 12 ∧ 1 ≤ dv ∧ dv ≤ daysInMonth yv mv then
          some ⟨yv, mv, dv⟩
        else none
      | none => none
    else none
  | _ => none

/-! ### Per-tenant variant (`st.py`): the `portfolios` table of one tenant
holds the cached OHLCV rows themselves, keyed by `UNIQUE (ticker, date)`. -/

/-- A raw row of the fetched `yfinance` history (`hist.iterrows()`):
date index plus the `Open`/`Close`/`Volume` columns.  The float columns are
modelled as exact rationals. -/
structure Raw where
  rDate : Date
  rOpen : ℚ
  rClose : ℚ
  rVolume : ℚ
deriving DecidableEq

/-- One stored row of the per-tenant `portfolios` table. -/
structure Point where
  ticker : String
  pdate : Date
  popen : ℚ
  pclose : ℚ
  volume : ℤ
deriving DecidableEq

/-- Python `round` at a tie rounds to the even neighbour (banker's
rounding); this is that rule on exact rationals.  (CPython applies it to
binary floats; the tie behaviour is irrelevant to every claim below.) -/
def pyRound (q : ℚ) : ℤ :=
  let f : ℤ := ⌊q⌋
  let r : ℚ := q - (f : ℚ)
  if r < 1 / 2 then f
  else if 1 / 2 < r then f + 1
  else if 2 ∣ f then f else f + 1

/-- `round(x, 2)`. -/
def round2 (q : ℚ) : ℚ := (pyRound (q * 100) : ℚ) / 100

/-- Python `int(x)` on a number: truncation toward zero. -/
def pyTrunc (q : ℚ) : ℤ := Int.tdiv q.num (q.den : ℤ)

/-- The tuple bound in `add_stock`'s INSERT: ticker, the row date, the two
monetary fields rounded to two decimals, and the volume coerced to `int`. -/
def normRow (t : String) (r : Raw) : Point :=
  ⟨t, r.rDate, round2 r.rOpen, round2 r.rClose, pyTrunc r.rVolume⟩

/-- Whether the tenant store already has a row with this `(ticker, date)`
key (the `UNIQUE KEY uniq_ticker_date`). -/
def hasKey (st : List Point) (t : String) (d : Date) : Bool :=
  st.any (fun p => decide (p.ticker = t ∧ p.pdate = d))

/-- `INSERT IGNORE` of one row: a key conflict leaves the store untouched
and reports `rowcount = 0`; otherwise the row is appended and
`rowcount = 1`. -/
def insertIgnore (st : List Point) (p : Point) : List Point × Nat :=
  if hasKey st p.ticker p.pdate then (st, 0) else (st ++ [p], 1)

/-- The ingestion loop of `add_stock` (`st.py` lines 218–231): normalize and
`INSERT IGNORE` each fetched row in order, accumulating
`inserted += cursor.rowcount`. -/
def ingest (st : List Point) (t : String) : List Raw → List Point × Nat
  | [] => (st, 0)
  | r :: rs =>
    let step := insertIgnore st (normRow t r)
    let rest := ingest step.1 t rs
    (rest.1, step.2 + rest.2)

/-- `add_stock` (`st.py` lines 209–240): validate the ticker, fail on an
empty history, otherwise run the ingestion loop and return `True`. -/
def add_stock (st : List Point) (tkr : String) (hist : List Raw) :
    List Point × Bool :=
  match validate_ticker tkr with
  | none => (st, false)
  | some t =>
    if hist = [] then (st, false)
    else ((ingest st t hist).1, true)

/-- `delete_stock` (`st.py` lines 242–257): validate the ticker, then
`DELETE FROM portfolios WHERE ticker = %s`; returns `True` iff
`cursor.rowcount` was positive. -/
def delete_stock (st : List Point) (tkr : String) : List Point × Bool :=
  match validate_ticker tkr with
  | none => (st, false)
  | some t =>
    let st2 := st.filter (fun p => decide (¬ p.ticker = t))
    (st2, decide (st2.length < st.length))

/-- A row of the per-tenant `users` table. -/
structure UserRow where
  uname : String
  pwHash : String
  salt : String
deriving DecidableEq

/-- `verify_password`: recompute the salted hash and compare.  The SHA-256
function itself is an opaque parameter of the model. -/
def verify_password (hashFn : String → String) (pw storedHash salt : String) : Bool :=
  decide (hashFn (pw ++ salt) = storedHash)

/-- The failure message shared by all invalid-credential paths of
`login_user`. -/
def invalidLoginMsg : String := "Invalid username or password"

/-- `login_user` (`st.py` lines 179–204).  `dbExists = false` models the
tenant database being absent, in which case connecting raises
`ConnectionError`, which the function catches and reports exactly like a bad
password.  The result is the returned value paired with the printed
message. -/
def login_user (hashFn : String → String) (dbExists : Bool)
    (users : List UserRow) (username password : String) :
    Option String × String :=
  match validate_username username with
  | none => (none, "Username must be 3-30 characters (letters, numbers, underscores only)")
  | some u =>
    if dbExists then
      match users.find? (fun r => decide (r.uname = u)) with
      | none => (none, invalidLoginMsg)
      | some r =>
        if verify_password hashFn password r.pwHash r.salt then
          (some u, "Welcome back, " ++ u ++ "!")
        else (none, invalidLoginMsg)
    else (none, invalidLoginMsg)

/-! ### Shared-store variant (`portfolio_manager_refactored.py`) -/

inductive DType where
  | intraday
  | interday
deriving DecidableEq

/-- A row of the `portfolios` metadata table. -/
structure Portfolio where
  id : Nat
  user_id : Nat
  name : String
  data_type : DType
  start_date : Option Date
  end_date : Option Date
  period : Option String
  interval_str : String
  is_readonly : Bool
deriving DecidableEq

/-- The shared store: portfolio metadata plus the `(portfolio_id, ticker)`
membership rows (this variant caches no time series at all). -/
structure DB where
  portfolios : List Portfolio
  portfolio_stocks : List (Nat × String)
deriving DecidableEq

/-- Database well-formedness guaranteed by the schema: primary-key ids are
unique and so are the `UNIQUE (user_id, name)` pairs. -/
def WF (db : DB) : Prop :=
  (db.portfolios.map Portfolio.id).Nodup ∧
  (db.portfolios.map (fun p => (p.user_id, p.name))).Nodup

instance : DecidablePred WF := fun db => by
  unfold WF; infer_instance

/-- `get_portfolio_id_by_name` (lines 720–732). -/
def get_portfolio_id_by_name (db : DB) (uid : Nat) (name : String) : Option Nat :=
  (db.portfolios.find? (fun p => decide (p.user_id = uid ∧ p.name = name))).map Portfolio.id

/-- Validation of a ticker batch (`[validate_ticker(t) for t in tickers]`):
the first `ValueError` aborts the whole comprehension. -/
def validateTickers : List String → Option (List String)
  | [] => some []
  | t :: ts =>
    match validate_ticker t with
    | none => none
    | some v =>
      match validateTickers ts with
      | none => none
      | some vs => some (v :: vs)

/-- The insertion loop of `add_stocks`: each `INSERT` into
`portfolio_stocks` either succeeds (`added += 1`) or raises
`IntegrityError` on the `(portfolio_id, ticker)` primary key, which is
caught per ticker and skipped. -/
def insertStocksLoop (stocks : List (Nat × String)) (pid : Nat) :
    List String → List (Nat × String) × Nat
  | [] => (stocks, 0)
  | t :: ts =>
    if (pid, t) ∈ stocks then insertStocksLoop stocks pid ts
    else
      let rest := insertStocksLoop (stocks ++ [(pid, t)]) pid ts
      (rest.1, rest.2 + 1)

/-- `PortfolioManager.add_stocks` (lines 440–488): resolve the portfolio by
name, re-check ownership, refuse read-only portfolios, validate the batch
(a `ValueError` rolls the empty transaction back and returns `False`), run
the insertion loop, and return `True` iff `added > 0`. -/
def add_stocks (db : DB) (name : String) (uid : Nat) (tickers : List String) :
    DB × Bool :=
  match get_portfolio_id_by_name db uid name with
  | none => (db, false)
  | some pid =>
    match db.portfolios.find? (fun q => decide (q.id = pid ∧ q.user_id = uid)) with
    | none => (db, false)
    | some p =>
      if p.is_readonly then (db, false)
      else
        match validateTickers tickers with
        | none => (db, false)
        | some vts =>
          let res := insertStocksLoop db.portfolio_stocks pid vts
          ({ db with portfolio_stocks := res.1 }, decide (0 < res.2))

/-- The deletion loop of `remove_stocks`: one `DELETE ... WHERE
portfolio_id = %s AND ticker = %s` per ticker, counting the tickers whose
`rowcount` was positive. -/
def deleteStocksLoop (stocks : List (Nat × String)) (pid : Nat) :
    List String → List (Nat × String) × Nat
  | [] => (stocks, 0)
  | t :: ts =>
    let hit := (pid, t) ∈ stocks
    let stocks1 := stocks.filter (fun e => decide (¬ e = (pid, t)))
    let rest := deleteStocksLoop stocks1 pid ts
    (rest.1, (if hit then 1 else 0) + rest.2)

/-- `PortfolioManager.remove_stocks` (lines 490–533): resolve the portfolio
by name, verify ownership, validate the batch, then delete per ticker.
There is no read-only check.  The middle component is the reported
`removed` count; the Boolean result is `removed > 0`. -/
def remove_stocks (db : DB) (name : String) (uid : Nat) (tickers : List String) :
    DB × Nat × Bool :=
  match get_portfolio_id_by_name db uid name with
  | none => (db, 0, false)
  | some pid =>
    if db.portfolios.any (fun q => decide (q.id = pid ∧ q.user_id = uid)) then
      match validateTickers tickers with
      | none => (db, 0, false)
      | some vts =>
        let res := deleteStocksLoop db.portfolio_stocks pid vts
        ({ db with portfolio_stocks := res.1 }, res.2, decide (0 < res.2))
    else (db, 0, false)

/-- The `GROUP_CONCAT(ps.ticker)` membership list of one portfolio. -/
def portfolioTickers (db : DB) (pid : Nat) : List String :=
  (db.portfolio_stocks.filter (fun e => decide (e.1 = pid))).map Prod.snd

/-- The `UPDATE portfolios SET start_date = %s, end_date = %s WHERE id = %s`
statement. -/
def setWindow (db : DB) (pid : Nat) (sd ed : Date) : DB :=
  { db with
    portfolios := db.portfolios.map
      (fun q => if q.id = pid then { q with start_date := some sd, end_date := some ed } else q) }

/-- `PortfolioManager.update_interval` (lines 535–613).  `fetchOk` models
the outcome of the refetch triggered after the update; its failure is
caught inside the `with`-block (printed as a warning), so the transaction
still commits.  Result: new store, Boolean outcome, and whether the warning
was printed. -/
def update_interval (db : DB) (today : Date) (fetchOk : Bool)
    (name : String) (uid : Nat) (ss es : String) : DB × Bool × Bool :=
  match get_portfolio_id_by_name db uid name with
  | none => (db, false, false)
  | some pid =>
    match db.portfolios.find? (fun q => decide (q.id = pid ∧ q.user_id = uid)) with
    | none => (db, false, false)
    | some p =>
      if p.data_type = DType.intraday then (db, false, false)
      else if p.is_readonly then (db, false, false)
      else
        match validate_date ss with
        | none => (db, false, false)
        | some sd =>
          match validate_date es with
          | none => (db, false, false)
          | some ed =>
            if dateLe ed sd then (db, false, false)
            else if dateLt today ed then (db, false, false)
            else (setWindow db pid sd ed, true,
                  decide (portfolioTickers db pid ≠ []) && !fetchOk)

/-- `AUTO_INCREMENT` id for a new portfolio row. -/
def nextId (db : DB) : Nat :=
  db.portfolios.foldl (fun a p => max a p.id) 0 + 1

/-- `PortfolioManager.create_portfolio` (lines 252–313).  All inserts and
the initial `DataFetcher.fetch_data` call happen inside one
`get_db_cursor()` block: any exception — duplicate `(user_id, name)` key,
duplicate ticker within the batch, or a fetch failure (`fetch = none`) —
rolls the whole transaction back and the `except` clauses return `None`.
Only the path that reaches `return portfolio_id` commits. -/
def create_portfolio (db : DB) (fetch : Option Nat) (uid : Nat) (name : String)
    (tickers : List String) (dtype : DType) (period : Option String)
    (startD endD : Option Date) (interval : String) : DB × Option Nat :=
  if name = "" ∨ 50 < name.length then (db, none)
  else
    match validateTickers tickers with
    | none => (db, none)
    | some vts =>
      if db.portfolios.any (fun p => decide (p.user_id = uid ∧ p.name = name)) then
        (db, none)
      else if ¬ vts.Nodup then (db, none)
      else
        let pid := nextId db
        let port : Portfolio :=
          { id := pid, user_id := uid, name := name, data_type := dtype,
            start_date := if dtype = DType.intraday then none else startD,
            end_date := if dtype = DType.intraday then none else endD,
            period := if dtype = DType.intraday then period else none,
            interval_str := interval,
            is_readonly := dtype = DType.intraday }
        match fetch with
        | none => (db, none)
        | some _ =>
          (⟨db.portfolios ++ [port], db.portfolio_stocks ++ vts.map (fun t => (pid, t))⟩,
           some pid)

/-! ### Concrete fixtures used by the witnesses and counterexamples -/

/-- A cached OHLCV row in the per-tenant store. -/
def c6Point : Point := ⟨"AAPL", ⟨2023, 1, 2⟩, 0, 0, 0⟩

/-- A read-only (intraday) portfolio row. -/
def wPortRO : Portfolio :=
  ⟨1, 1, "scalp", DType.intraday, none, none, some "5d", "5m", true⟩

/-- A store holding only the read-only portfolio with one member ticker. -/
def wDBro : DB := ⟨[wPortRO], [(1, "AAPL")]⟩

/-- A mutable interday portfolio row. -/
def wPortRW : Portfolio :=
  ⟨2, 1, "core", DType.interday, some ⟨2023, 1, 1⟩, some ⟨2023, 2, 1⟩, none, "1d", false⟩

/-- A store holding only the mutable portfolio with one member ticker. -/
def wDBrw : DB := ⟨[wPortRW], [(2, "AAPL")]⟩

/-! ### Helper lemmas: characters and regex shapes -/

theorem toNat_ofNat_valid (n : Nat) (h : n < 55296) : (Char.ofNat n).toNat = n := by
  unfold Char.ofNat
  rw [dif_pos (Or.inl h)]
  rfl

theorem isLowerAZ_toNat {c : Char} (h : isLowerAZ c = true) :
    97 ≤ c.toNat ∧ c.toNat ≤ 122 := by
  simpa [isLowerAZ] using h

theorem pyUpperChar_toNat_of_lower {c : Char} (h : isLowerAZ c = true) :
    (pyUpperChar c).toNat = c.toNat - 32 := by
  have hb := isLowerAZ_toNat h
  unfold pyUpperChar
  rw [if_pos h]
  exact toNat_ofNat_valid _ (by omega)

theorem pyUpperChar_isUpperAZ (c : Char) :
    isUpperAZ (pyUpperChar c) = isAsciiLetter c := by
  by_cases hl : isLowerAZ c = true
  · have hb := isLowerAZ_toNat hl
    have ht := pyUpperChar_toNat_of_lower hl
    simp only [isAsciiLetter, hl, Bool.true_or]
    simp only [isUpperAZ, ht, decide_eq_true_eq]
    omega
  · simp only [pyUpperChar, if_neg hl, isAsciiLetter,
      Bool.not_eq_true] at *
    simp [hl]

theorem pyUpperChar_idem (c : Char) : pyUpperChar (pyUpperChar c) = pyUpperChar c := by
  by_cases hl : isLowerAZ c = true
  · have hb := isLowerAZ_toNat hl
    have ht := pyUpperChar_toNat_of_lower hl
    have : isLowerAZ (pyUpperChar c) = false := by
      simp only [isLowerAZ, ht, decide_eq_false_iff_not]
      omega
    conv =>
      lhs
      rw [pyUpperChar]
    rw [if_neg (by simp [this])]
  · unfold pyUpperChar
    rw [if_neg hl, if_neg hl]

theorem pyUpperChar_eq_newline_iff (c : Char) : pyUpperChar c = '\n' ↔ c = '\n' := by
  constructor
  · intro h
    by_cases hl : isLowerAZ c = true
    · exfalso
      have hb := isLowerAZ_toNat hl
      have ht := pyUpperChar_toNat_of_lower hl
      rw [h] at ht
      have : ('\n').toNat = 10 := by decide
      omega
    · unfold pyUpperChar at h
      rwa [if_neg hl] at h
  · intro h
    subst h
    decide

/-! ### Helper lemmas: lists -/

theorem find?_eq_some_of_unique {α : Type} {l : List α} {q : α → Bool} {x : α}
    (hx : x ∈ l) (hqx : q x = true) (huniq : ∀ y ∈ l, q y = true → y = x) :
    l.find? q = some x := by
  induction l with
  | nil => cases hx
  | cons a t ih =>
    by_cases hqa : q a = true
    · have : a = x := huniq a (by simp) hqa
      subst this
      rw [List.find?_cons_of_pos _ hqa]
    · rw [List.find?_cons_of_neg _ (by simp [hqa])]
      have hx' : x ∈ t := by
        rcases List.mem_cons.mp hx with h | h
        · subst h; exact absurd hqx hqa
        · exact h
      exact ih hx' (fun y hy hqy => huniq y (List.mem_cons_of_mem _ hy) hqy)

theorem takeWhile_append_all {α : Type} {p : α → Bool} {A : List α} (B : List α)
    (h : ∀ a ∈ A, p a = true) :
    (A ++ B).takeWhile p = A ++ B.takeWhile p := by
  induction A with
  | nil => simp
  | cons a t ih =>
    have ha := h a (by simp)
    simp only [List.cons_append, List.takeWhile_cons, ha, if_true]
    rw [ih (fun x hx => h x (by simp [hx]))]

/-- The language of `^[A-Z]{1,5}$` run on the character-wise upper-casing of
`l`: one to five ASCII letters, optionally followed by a single final
newline. -/
def tickerShape (l : List Char) : Prop :=
  ∃ core suf, l = core ++ suf ∧ (suf = [] ∨ suf = ['\n']) ∧
    1 ≤ core.length ∧ core.length ≤ 5 ∧ ∀ c ∈ core, isAsciiLetter c = true

theorem map_pyUpperChar_eq_newline {D : List Char}
    (h : D.map pyUpperChar = ['\n']) : D = ['\n'] := by
  cases D with
  | nil => simp at h
  | cons c D2 =>
    cases D2 with
    | nil =>
      simp only [List.map_cons, List.map_nil, List.cons.injEq, and_true] at h
      rw [(pyUpperChar_eq_newline_iff c).mp h]
    | cons d D3 => simp at h

theorem drop_length_takeWhile {α : Type} (p : α → Bool) (l : List α) :
    l.drop (l.takeWhile p).length = l.dropWhile p := by
  induction l with
  | nil => rfl
  | cons a t ih =>
    by_cases hp : p a = true
    · simp [List.takeWhile_cons, List.dropWhile_cons, hp, ih]
    · simp [List.takeWhile_cons, List.dropWhile_cons, hp]

theorem upperComp_eq : (isUpperAZ ∘ pyUpperChar) = isAsciiLetter :=
  funext pyUpperChar_isUpperAZ

theorem reMatchTicker_map_iff (l : List Char) :
    reMatchTicker (l.map pyUpperChar) = true ↔ tickerShape l := by
  have htw : (l.map pyUpperChar).takeWhile isUpperAZ
      = (l.takeWhile isAsciiLetter).map pyUpperChar := by
    rw [List.takeWhile_map, upperComp_eq]
  have hdw : (l.map pyUpperChar).dropWhile isUpperAZ
      = (l.dropWhile isAsciiLetter).map pyUpperChar := by
    rw [List.dropWhile_map, upperComp_eq]
  constructor
  · intro h
    simp only [reMatchTicker, Bool.and_eq_true, decide_eq_true_eq, pyDollar] at h
    obtain ⟨⟨h1, h5⟩, hd⟩ := h
    rw [drop_length_takeWhile, hdw] at hd
    rw [htw, List.length_map] at h1 h5
    refine ⟨l.takeWhile isAsciiLetter, l.dropWhile isAsciiLetter,
      (List.takeWhile_append_dropWhile isAsciiLetter l).symm, ?_, h1, h5,
      fun c hc => List.mem_takeWhile_imp hc⟩
    rcases hd with hd | hd
    · exact Or.inl (List.map_eq_nil_iff.mp hd)
    · exact Or.inr (map_pyUpperChar_eq_newline hd)
  · rintro ⟨core, suf, rfl, hsuf, h1, h5, hcore⟩
    have hcore' : ∀ a ∈ core.map pyUpperChar, isUpperAZ a = true := by
      intro a ha
      obtain ⟨c, hc, rfl⟩ := List.mem_map.mp ha
      rw [pyUpperChar_isUpperAZ]
      exact hcore c hc
    have hsufmap : (suf.map pyUpperChar).takeWhile isUpperAZ = [] := by
      rcases hsuf with rfl | rfl
      · rfl
      · decide
    have hrun : ((core ++ suf).map pyUpperChar).takeWhile isUpperAZ
        = core.map pyUpperChar := by
      rw [List.map_append, takeWhile_append_all _ hcore', hsufmap, List.append_nil]
    have hdrop : ((core ++ suf).map pyUpperChar).drop core.length
        = suf.map pyUpperChar := by
      rw [List.map_append, ← List.length_map core pyUpperChar, List.drop_left]
    simp only [reMatchTicker, hrun, List.length_map, hdrop, Bool.and_eq_true,
      decide_eq_true_eq, pyDollar]
    refine ⟨⟨h1, h5⟩, ?_⟩
    rcases hsuf with rfl | rfl
    · exact Or.inl rfl
    · exact Or.inr (by decide)

theorem pyUpper_data (s : String) : (pyUpper s).data = s.data.map pyUpperChar := rfl

theorem pyUpper_idem (s : String) : pyUpper (pyUpper s) = pyUpper s := by
  apply String.ext
  rw [pyUpper_data, pyUpper_data, List.map_map]
  apply List.map_congr_left
  intro c _
  exact pyUpperChar_idem c

/-- Acceptance characterization of `validate_ticker`. -/
theorem validate_ticker_isSome_iff (s : String) :
    (validate_ticker s).isSome = true ↔ tickerShape s.data := by
  by_cases hs : s = ""
  · subst hs
    have hv : validate_ticker "" = none := rfl
    rw [hv]
    simp only [Option.isSome_none, Bool.false_eq_true, false_iff]
    rintro ⟨core, suf, heq, hsuf, h1, h5, hcore⟩
    have heq2 : core ++ suf = ([] : List Char) := heq.symm
    have hc0 : core = [] := (List.append_eq_nil.mp heq2).1
    rw [hc0] at h1
    simp at h1
  · unfold validate_ticker
    rw [if_neg hs]
    have hdata : (pyUpper s).data = s.data.map pyUpperChar := rfl
    by_cases hm : reMatchTicker (s.data.map pyUpperChar) = true
    · rw [hdata, if_pos hm]
      simp only [Option.isSome_some, true_iff]
      exact (reMatchTicker_map_iff s.data).mp hm
    · rw [hdata, if_neg hm]
      simp only [Option.isSome_none, Bool.false_eq_true, false_iff]
      intro hshape
      exact hm ((reMatchTicker_map_iff s.data).mpr hshape)

theorem string_eq_empty_of_data {s : String} (h : s.data = []) : s = "" :=
  String.ext h

theorem validate_ticker_eq_none_or_upper (s : String) :
    validate_ticker s = none ∨ validate_ticker s = some (pyUpper s) := by
  unfold validate_ticker
  by_cases hs : s = ""
  · rw [if_pos hs]; exact Or.inl rfl
  · rw [if_neg hs]
    by_cases hm : reMatchTicker (pyUpper s).data = true
    · rw [if_pos hm]; exact Or.inr rfl
    · rw [if_neg hm]; exact Or.inl rfl

theorem validate_ticker_idem (s : String) (h : (validate_ticker s).isSome = true) :
    validate_ticker (pyUpper s) = some (pyUpper s) := by
  unfold validate_ticker at h ⊢
  by_cases hs : s = ""
  · rw [if_pos hs] at h; simp at h
  · rw [if_neg hs] at h
    by_cases hm : reMatchTicker (pyUpper s).data = true
    · have hne : ¬ pyUpper s = "" := by
        intro he
        have h2 := congrArg String.data he
        rw [pyUpper_data] at h2
        exact hs (string_eq_empty_of_data (List.map_eq_nil_iff.mp h2))
      rw [if_neg hne]
      have hdata2 : (pyUpper (pyUpper s)).data = (pyUpper s).data :=
        congrArg String.data (pyUpper_idem s)
      rw [hdata2, if_pos hm, pyUpper_idem]
    · rw [if_neg hm] at h; simp at h

theorem validate_ticker_digit_none (s : String) (c : Char) (hc : c ∈ s.data)
    (hd : isDigitC c = true) : validate_ticker s = none := by
  cases ho : validate_ticker s with
  | none => rfl
  | some t =>
    exfalso
    have hsome : (validate_ticker s).isSome = true := by rw [ho]; rfl
    obtain ⟨core, suf, heq, hsuf, h1, h5, hcore⟩ := (validate_ticker_isSome_iff s).mp hsome
    rw [heq] at hc
    rcases List.mem_append.mp hc with h | h
    · have hlet := hcore c h
      simp only [isAsciiLetter, isLowerAZ, isUpperAZ, Bool.or_eq_true,
        decide_eq_true_eq] at hlet
      simp only [isDigitC, decide_eq_true_eq] at hd
      omega
    · rcases hsuf with rfl | rfl
      · cases h
      · have hcn : c = '\n' := by simpa using h
        rw [hcn] at hd
        exact absurd hd (by decide)

theorem reMatchD12_shapes {l : List Char} (h : reMatchD12 l = true) :
    (∃ a, l = [a, 'd'] ∧ isDigitC a = true) ∨
    (∃ a, l = [a, 'd', '\n'] ∧ isDigitC a = true) ∨
    (∃ a b, l = [a, b, 'd'] ∧ isDigitC a = true ∧ isDigitC b = true) ∨
    (∃ a b, l = [a, b, 'd', '\n'] ∧ isDigitC a = true ∧ isDigitC b = true) := by
  unfold reMatchD12 at h
  split at h
  · exact Or.inl ⟨_, rfl, h⟩
  · exact Or.inr (Or.inl ⟨_, rfl, h⟩)
  · rw [Bool.and_eq_true] at h
    exact Or.inr (Or.inr (Or.inl ⟨_, _, rfl, h.1, h.2⟩))
  · rw [Bool.and_eq_true] at h
    exact Or.inr (Or.inr (Or.inr ⟨_, _, rfl, h.1, h.2⟩))
  · exact absurd h (by simp)

theorem reMatchD12_of_shape (ds : List Char) (hne : ds ≠ []) (hlen : ds.length ≤ 2)
    (hdig : ∀ c ∈ ds, isDigitC c = true) : reMatchD12 (ds ++ ['d']) = true := by
  rcases ds with _ | ⟨a, _ | ⟨b, _ | ⟨c, t⟩⟩⟩
  · exact absurd rfl hne
  · simpa [reMatchD12] using hdig a (by simp)
  · have ha := hdig a (by simp)
    have hb := hdig b (by simp)
    simp [reMatchD12, ha, hb]
  · simp only [List.length_cons] at hlen
    omega

theorem reMatchDPlusAfter_d : reMatchDPlusAfter ['d'] = true := by decide

theorem reMatchDPlusAfter_dn : reMatchDPlusAfter ['d', '\n'] = true := by decide

theorem reMatchDPlusAfter_cons (b : Char) (rest : List Char)
    (hrest : reMatchDPlusAfter ('d' :: rest) = true)
    (hpd : pyDollar ('d' :: rest) = false) :
    reMatchDPlusAfter (b :: 'd' :: rest) = isDigitC b := by
  rw [show reMatchDPlusAfter (b :: 'd' :: rest)
      = (if isDigitC b = true then reMatchDPlusAfter ('d' :: rest)
         else (decide (b = 'd') && pyDollar ('d' :: rest))) from rfl]
  by_cases hb : isDigitC b = true
  · rw [if_pos hb, hrest, hb]
  · rw [Bool.not_eq_true] at hb
    rw [if_neg (by simp [hb]), hpd, Bool.and_false, hb]

theorem reMatchDPlus_ad (a : Char) : reMatchDPlus [a, 'd'] = isDigitC a := by
  rw [show reMatchDPlus [a, 'd'] = (isDigitC a && reMatchDPlusAfter ['d']) from rfl,
    reMatchDPlusAfter_d, Bool.and_true]

theorem reMatchDPlus_adn (a : Char) : reMatchDPlus [a, 'd', '\n'] = isDigitC a := by
  rw [show reMatchDPlus [a, 'd', '\n'] = (isDigitC a && reMatchDPlusAfter ['d', '\n']) from rfl,
    reMatchDPlusAfter_dn, Bool.and_true]

theorem reMatchDPlus_abd (a b : Char) :
    reMatchDPlus [a, b, 'd'] = (isDigitC a && isDigitC b) := by
  rw [show reMatchDPlus [a, b, 'd'] = (isDigitC a && reMatchDPlusAfter [b, 'd']) from rfl,
    reMatchDPlusAfter_cons b [] reMatchDPlusAfter_d (by decide)]

theorem reMatchDPlus_abdn (a b : Char) :
    reMatchDPlus [a, b, 'd', '\n'] = (isDigitC a && isDigitC b) := by
  rw [show reMatchDPlus [a, b, 'd', '\n'] = (isDigitC a && reMatchDPlusAfter [b, 'd', '\n']) from rfl,
    reMatchDPlusAfter_cons b ['\n'] reMatchDPlusAfter_dn (by decide)]

theorem validate_period_eval_ad (s : String) (a : Char) (hl : s.data = [a, 'd'])
    (h12 : reMatchD12 s.data = true) (ha : isDigitC a = true) :
    validate_period s = some s := by
  simp only [validate_period]
  rw [if_pos (Or.inr h12), hl]
  rw [if_pos (show reMatchDPlus [a, 'd'] = true by rw [reMatchDPlus_ad]; exact ha)]
  have hdl : ([a, 'd'] : List Char).dropLast = [a] := rfl
  rw [hdl]
  have hpi : pyIntDigits [a] = some (digitsToNat [a]) := by
    unfold pyIntDigits
    rw [if_pos ⟨by simp, by simp [ha]⟩]
  rw [hpi]
  show (if 60 < digitsToNat [a] then none else some s) = some s
  have hbound : ¬ 60 < digitsToNat [a] := by
    simp only [isDigitC, decide_eq_true_eq] at ha
    simp only [digitsToNat, List.foldl]
    omega
  rw [if_neg hbound]

theorem validate_period_eval_abd (s : String) (a b : Char) (hl : s.data = [a, b, 'd'])
    (h12 : reMatchD12 s.data = true) (ha : isDigitC a = true) (hb : isDigitC b = true) :
    validate_period s = if 60 < digitsToNat [a, b] then none else some s := by
  simp only [validate_period]
  rw [if_pos (Or.inr h12), hl]
  rw [if_pos (show reMatchDPlus [a, b, 'd'] = true by
    rw [reMatchDPlus_abd, ha, hb]; rfl)]
  have hdl : ([a, b, 'd'] : List Char).dropLast = [a, b] := rfl
  rw [hdl]
  have hpi : pyIntDigits [a, b] = some (digitsToNat [a, b]) := by
    unfold pyIntDigits
    rw [if_pos ⟨by simp, by simp [ha, hb]⟩]
  rw [hpi]

theorem validate_period_eval_adn (s : String) (a : Char) (hl : s.data = [a, 'd', '\n'])
    (h12 : reMatchD12 s.data = true) (ha : isDigitC a = true) :
    validate_period s = none := by
  simp only [validate_period]
  rw [if_pos (Or.inr h12), hl]
  rw [if_pos (show reMatchDPlus [a, 'd', '\n'] = true by rw [reMatchDPlus_adn]; exact ha)]
  have hdl : ([a, 'd', '\n'] : List Char).dropLast = [a, 'd'] := rfl
  rw [hdl]
  have hpi : pyIntDigits [a, 'd'] = none := by
    unfold pyIntDigits
    rw [if_neg]
    rintro ⟨-, hall⟩
    have hd := List.all_eq_true.mp hall 'd' (by simp)
    exact absurd hd (by decide)
  rw [hpi]

theorem validate_period_eval_abdn (s : String) (a b : Char)
    (hl : s.data = [a, b, 'd', '\n']) (h12 : reMatchD12 s.data = true)
    (ha : isDigitC a = true) (hb : isDigitC b = true) :
    validate_period s = none := by
  simp only [validate_period]
  rw [if_pos (Or.inr h12), hl]
  rw [if_pos (show reMatchDPlus [a, b, 'd', '\n'] = true by
    rw [reMatchDPlus_abdn, ha, hb]; rfl)]
  have hdl : ([a, b, 'd', '\n'] : List Char).dropLast = [a, b, 'd'] := rfl
  rw [hdl]
  have hpi : pyIntDigits [a, b, 'd'] = none := by
    unfold pyIntDigits
    rw [if_neg]
    rintro ⟨-, hall⟩
    have hd := List.all_eq_true.mp hall 'd' (by simp)
    exact absurd hd (by decide)
  rw [hpi]

/-- Claim C5: `validate_period` accepts a string iff it lies in the fixed
period set or is a one-or-two-digit count followed by `d` with value at most
60, and acceptance returns the string unchanged; every other string —
including every digit-pattern period whose value exceeds 60 — is rejected. -/
theorem C5_validate_period_spec (s : String) :
    (validate_period s = none ∨ validate_period s = some s)
    ∧ (validate_period s = some s ↔
        s ∈ valid_periods ∨ ∃ ds, s.data = ds ++ ['d'] ∧ ds ≠ [] ∧ ds.length ≤ 2 ∧
          (∀ c ∈ ds, isDigitC c = true) ∧ digitsToNat ds ≤ 60) := by
  by_cases hmem : s ∈ valid_periods
  · have hval : validate_period s = some s := by
      fin_cases hmem <;> decide
    exact ⟨Or.inr hval, iff_of_true hval (Or.inl hmem)⟩
  · by_cases h12 : reMatchD12 s.data = true
    · rcases reMatchD12_shapes h12 with
        ⟨a, hl, ha⟩ | ⟨a, hl, ha⟩ | ⟨a, b, hl, ha, hb⟩ | ⟨a, b, hl, ha, hb⟩
      · have hval := validate_period_eval_ad s a hl h12 ha
        have hbound : digitsToNat [a] ≤ 60 := by
          simp only [isDigitC, decide_eq_true_eq] at ha
          simp only [digitsToNat, List.foldl]
          omega
        exact ⟨Or.inr hval,
          iff_of_true hval (Or.inr ⟨[a], hl, by simp, by simp, by simp [ha], hbound⟩)⟩
      · have hval := validate_period_eval_adn s a hl h12 ha
        refine ⟨Or.inl hval, ?_⟩
        rw [hval]
        refine iff_of_false (by simp) ?_
        rintro (h | ⟨ds, heq, -, -, -, -⟩)
        · exact hmem h
        · rw [hl] at heq
          have h1 := congrArg List.getLast? heq
          rw [List.getLast?_concat] at h1
          have h2 : (some '\n' : Option Char) = some 'd' := h1
          exact absurd h2 (by decide)
      · have hval := validate_period_eval_abd s a b hl h12 ha hb
        by_cases hgt : 60 < digitsToNat [a, b]
        · rw [if_pos hgt] at hval
          refine ⟨Or.inl hval, ?_⟩
          rw [hval]
          refine iff_of_false (by simp) ?_
          rintro (h | ⟨ds, heq, -, -, -, hle⟩)
          · exact hmem h
          · have heq2 : ds ++ ['d'] = [a, b] ++ ['d'] := heq.symm.trans hl
            have hds : ds = [a, b] := List.append_cancel_right heq2
            rw [hds] at hle
            omega
        · rw [if_neg hgt] at hval
          exact ⟨Or.inr hval,
            iff_of_true hval
              (Or.inr ⟨[a, b], hl, by simp, by simp, by simp [ha, hb], by omega⟩)⟩
      · have hval := validate_period_eval_abdn s a b hl h12 ha hb
        refine ⟨Or.inl hval, ?_⟩
        rw [hval]
        refine iff_of_false (by simp) ?_
        rintro (h | ⟨ds, heq, -, -, -, -⟩)
        · exact hmem h
        · rw [hl] at heq
          have h1 := congrArg List.getLast? heq
          rw [List.getLast?_concat] at h1
          have h2 : (some '\n' : Option Char) = some 'd' := h1
          exact absurd h2 (by decide)
    · have hnone : validate_period s = none := by
        simp only [validate_period]
        rw [if_neg (not_or.mpr ⟨hmem, h12⟩)]
      refine ⟨Or.inl hnone, ?_⟩
      rw [hnone]
      refine iff_of_false (by simp) ?_
      rintro (h | ⟨ds, heq, hne, hlen, hdig, -⟩)
      · exact hmem h
      · apply h12
        rw [heq]
        exact reMatchD12_of_shape ds hne hlen hdig

/-- Witness for C5: `validate_period` at the concrete period `30d`. -/
theorem C5_validate_period_spec_witness : validate_period "30d" = some "30d" := by
  have h := (C5_validate_period_spec "30d").2
  exact h.mpr (Or.inr ⟨['3', '0'], by decide, by decide, by decide, by decide, by decide⟩)

/-- Claim C8 — counterexample to the claim as stated: the 6-character string
`"ABCDE\n"` contains no digit yet is *accepted* by `validate_ticker` (and
returned verbatim), because CPython's `$` anchor also matches just before a
trailing newline; so "any string longer than 5 characters is rejected" is
false, as is the acceptance-iff-`[A-Z]{1,5}` reading. -/
theorem C8_validate_ticker_counterexample :
    validate_ticker "ABCDE\n" = some "ABCDE\n" ∧ ("ABCDE\n").length = 6 := by
  exact ⟨by decide, by decide⟩

/-- Claim C8 (amended): `validate_ticker s` accepts iff `s` consists of one
to five ASCII letters optionally followed by one trailing newline (the
CPython `$` artefact); on acceptance it returns `s.upper()`; it is
idempotent on its own output; and any string containing a digit is
rejected. -/
theorem C8_validate_ticker_spec (s : String) :
    ((validate_ticker s).isSome = true ↔
      ∃ core suf, s.data = core ++ suf ∧ (suf = [] ∨ suf = ['\n']) ∧
        1 ≤ core.length ∧ core.length ≤ 5 ∧ ∀ c ∈ core, isAsciiLetter c = true)
    ∧ (validate_ticker s = none ∨ validate_ticker s = some (pyUpper s))
    ∧ ((validate_ticker s).isSome = true → validate_ticker (pyUpper s) = some (pyUpper s))
    ∧ (∀ c ∈ s.data, isDigitC c = true → validate_ticker s = none) :=
  ⟨validate_ticker_isSome_iff s, validate_ticker_eq_none_or_upper s,
   validate_ticker_idem s, fun c hc hd => validate_ticker_digit_none s c hc hd⟩

/-- Witness for C8 (amended): the idempotence clause applied at the concrete
ticker `"aapl"`. -/
theorem C8_validate_ticker_spec_witness :
    (validate_ticker "aapl").isSome = true ∧
      validate_ticker (pyUpper "aapl") = some (pyUpper "aapl") := by
  have hsome : (validate_ticker "aapl").isSome = true := by decide
  exact ⟨hsome, (C8_validate_ticker_spec "aapl").2.2.1 hsome⟩

/-! ### Ingestion lemmas (per-tenant variant) -/

theorem hasKey_append_left {st tl : List Point} {t : String} {d : Date}
    (h : hasKey st t d = true) : hasKey (st ++ tl) t d = true := by
  unfold hasKey at h ⊢
  rw [List.any_append, h, Bool.true_or]

theorem hasKey_of_append_false {st tl : List Point} {t : String} {d : Date}
    (h : hasKey (st ++ tl) t d = false) : hasKey st t d = false := by
  by_cases h2 : hasKey st t d = true
  · rw [hasKey_append_left h2] at h
    cases h
  · rwa [Bool.not_eq_true] at h2

theorem insertIgnore_extends (st : List Point) (p : Point) :
    ∃ tl, (insertIgnore st p).1 = st ++ tl ∧
      ∀ q ∈ tl, hasKey st q.ticker q.pdate = false := by
  unfold insertIgnore
  by_cases h : hasKey st p.ticker p.pdate = true
  · rw [if_pos h]
    exact ⟨[], by simp, by simp⟩
  · rw [if_neg h]
    refine ⟨[p], rfl, ?_⟩
    intro q hq
    have hq2 : q = p := by simpa using hq
    subst hq2
    rwa [Bool.not_eq_true] at h

theorem insertIgnore_hasKey (st : List Point) (p : Point) :
    hasKey (insertIgnore st p).1 p.ticker p.pdate = true := by
  unfold insertIgnore
  by_cases h : hasKey st p.ticker p.pdate = true
  · rw [if_pos h]
    exact h
  · rw [if_neg h]
    unfold hasKey
    simp [List.any_append]

theorem ingest_cons (st : List Point) (t : String) (r : Raw) (rs : List Raw) :
    ingest st t (r :: rs)
      = ((ingest (insertIgnore st (normRow t r)).1 t rs).1,
         (insertIgnore st (normRow t r)).2
           + (ingest (insertIgnore st (normRow t r)).1 t rs).2) := rfl

theorem ingest_extends (t : String) (rows : List Raw) :
    ∀ st, ∃ tl, (ingest st t rows).1 = st ++ tl ∧
      ∀ q ∈ tl, hasKey st q.ticker q.pdate = false := by
  induction rows with
  | nil =>
    intro st
    exact ⟨[], by simp [ingest], by simp⟩
  | cons r rs ih =>
    intro st
    obtain ⟨tl0, h0, hf0⟩ := insertIgnore_extends st (normRow t r)
    obtain ⟨tl1, h1, hf1⟩ := ih (insertIgnore st (normRow t r)).1
    refine ⟨tl0 ++ tl1, ?_, ?_⟩
    · rw [show (ingest st t (r :: rs)).1
          = (ingest (insertIgnore st (normRow t r)).1 t rs).1 from rfl,
        h1, h0, List.append_assoc]
    · intro q hq
      rcases List.mem_append.mp hq with h | h
      · exact hf0 q h
      · have h2 := hf1 q h
        rw [h0] at h2
        exact hasKey_of_append_false h2

theorem ingest_keys (t : String) (rows : List Raw) :
    ∀ st r, r ∈ rows →
      hasKey (ingest st t rows).1 (normRow t r).ticker (normRow t r).pdate = true := by
  induction rows with
  | nil =>
    intro st r hr
    cases hr
  | cons r0 rs ih =>
    intro st r hr
    rcases List.mem_cons.mp hr with rfl | hr
    · have h1 := insertIgnore_hasKey st (normRow t r)
      obtain ⟨tl, htl, -⟩ := ingest_extends t rs (insertIgnore st (normRow t r)).1
      rw [show (ingest st t (r :: rs)).1
          = (ingest (insertIgnore st (normRow t r)).1 t rs).1 from rfl, htl]
      exact hasKey_append_left h1
    · rw [show (ingest st t (r0 :: rs)).1
          = (ingest (insertIgnore st (normRow t r0)).1 t rs).1 from rfl]
      exact ih _ r hr

theorem ingest_noop (t : String) (rows : List Raw) :
    ∀ st, (∀ r ∈ rows, hasKey st (normRow t r).ticker (normRow t r).pdate = true) →
      ingest st t rows = (st, 0) := by
  induction rows with
  | nil =>
    intro st _
    rfl
  | cons r rs ih =>
    intro st h
    have h0 := h r (by simp)
    have hstep : insertIgnore st (normRow t r) = (st, 0) := by
      unfold insertIgnore
      rw [if_pos h0]
    rw [ingest_cons, hstep]
    show ((ingest st t rs).1, 0 + (ingest st t rs).2) = (st, 0)
    rw [ih st (fun r2 hr2 => h r2 (by simp [hr2]))]
    rfl

/-- Claim C1: the ingestion loop of `add_stock` is an insert-if-absent merge
on the `(ticker, date)` key — existing rows are never overwritten (the old
store is a prefix of the new one), every inserted row's key was absent from
the old store, no conflict raises (the function is total) — and it is
idempotent: re-ingesting the same rows inserts a count of 0 and leaves the
store identical. -/
theorem C1_ingest_idempotent (st : List Point) (t : String) (rows : List Raw) :
    (∃ tl, (ingest st t rows).1 = st ++ tl ∧
        ∀ q ∈ tl, hasKey st q.ticker q.pdate = false)
    ∧ ingest (ingest st t rows).1 t rows = ((ingest st t rows).1, 0) := by
  refine ⟨ingest_extends t rows st, ?_⟩
  exact ingest_noop t rows (ingest st t rows).1 (fun r hr => ingest_keys t rows st r hr)

/-- Claim C9: in the per-tenant variant, a login against a missing tenant
database (`dbExists = false` — the `ConnectionError` path) and a login with
a wrong password on an existing account produce the same observable outcome,
`(None, "Invalid username or password")`, so a caller cannot distinguish a
nonexistent account from bad credentials. -/
theorem C9_login_indistinguishable (hashFn : String → String) (users : List UserRow)
    (username pw1 pw2 u : String) (r : UserRow)
    (hu : validate_username username = some u)
    (hfind : users.find? (fun q => decide (q.uname = u)) = some r)
    (hwrong : hashFn (pw2 ++ r.salt) ≠ r.pwHash) :
    login_user hashFn false users username pw1 = (none, invalidLoginMsg)
    ∧ login_user hashFn true users username pw2 = (none, invalidLoginMsg)
    ∧ login_user hashFn false users username pw1
        = login_user hashFn true users username pw2 := by
  have h1 : login_user hashFn false users username pw1 = (none, invalidLoginMsg) := by
    simp [login_user, hu]
  have h2 : login_user hashFn true users username pw2 = (none, invalidLoginMsg) := by
    simp [login_user, hu, hfind, verify_password, hwrong]
  exact ⟨h1, h2, h1.trans h2.symm⟩

/-- Witness for C9 at a concrete tenant state and hash function. -/
theorem C9_login_indistinguishable_witness :
    login_user (fun s => s) false [⟨"alice", "HASH", "s1"⟩] "alice" "x"
        = (none, invalidLoginMsg)
    ∧ login_user (fun s => s) true [⟨"alice", "HASH", "s1"⟩] "alice" "pw"
        = (none, invalidLoginMsg) := by
  have h := C9_login_indistinguishable (fun s => s) [⟨"alice", "HASH", "s1"⟩]
    "alice" "x" "pw" "alice" ⟨"alice", "HASH", "s1"⟩ (by decide) (by decide) (by decide)
  exact ⟨h.1, h.2.1⟩

/-! ### Repository lemmas (shared-store variant) -/

theorem find_portfolio_by_name {db : DB} {p : Portfolio} {uid : Nat} {name : String}
    (hwf : WF db) (hp : p ∈ db.portfolios) (hu : p.user_id = uid) (hn : p.name = name) :
    db.portfolios.find? (fun q => decide (q.user_id = uid ∧ q.name = name)) = some p := by
  apply find?_eq_some_of_unique hp
  · simp [hu, hn]
  · intro y hy hqy
    simp only [decide_eq_true_eq] at hqy
    refine List.inj_on_of_nodup_map hwf.2 hy hp ?_
    simp [hqy.1, hqy.2, hu, hn]

theorem find_portfolio_by_id {db : DB} {p : Portfolio} {uid : Nat}
    (hwf : WF db) (hp : p ∈ db.portfolios) (hu : p.user_id = uid) :
    db.portfolios.find? (fun q => decide (q.id = p.id ∧ q.user_id = uid)) = some p := by
  apply find?_eq_some_of_unique hp
  · simp [hu]
  · intro y hy hqy
    simp only [decide_eq_true_eq] at hqy
    exact List.inj_on_of_nodup_map hwf.1 hy hp hqy.1

theorem get_portfolio_id_eq {db : DB} {p : Portfolio} {uid : Nat} {name : String}
    (hwf : WF db) (hp : p ∈ db.portfolios) (hu : p.user_id = uid) (hn : p.name = name) :
    get_portfolio_id_by_name db uid name = some p.id := by
  unfold get_portfolio_id_by_name
  rw [find_portfolio_by_name hwf hp hu hn]
  rfl

/-- Claim C3: `add_stocks` on a read-only portfolio returns `false` and
leaves the store — in particular the ticker membership — unchanged, for
*any* ticker list, valid or not (the read-only check precedes validation). -/
theorem C3_add_stocks_readonly {db : DB} {p : Portfolio} {uid : Nat} {name : String}
    (hwf : WF db) (hp : p ∈ db.portfolios) (hu : p.user_id = uid) (hn : p.name = name)
    (hro : p.is_readonly = true) (tickers : List String) :
    add_stocks db name uid tickers = (db, false) := by
  simp only [add_stocks, get_portfolio_id_eq hwf hp hu hn,
    find_portfolio_by_id hwf hp hu, hro, if_true]

theorem insertStocksLoop_cons (stocks : List (Nat × String)) (pid : Nat)
    (t : String) (ts : List String) :
    insertStocksLoop stocks pid (t :: ts)
      = (if (pid, t) ∈ stocks then insertStocksLoop stocks pid ts
         else ((insertStocksLoop (stocks ++ [(pid, t)]) pid ts).1,
               (insertStocksLoop (stocks ++ [(pid, t)]) pid ts).2 + 1)) := rfl

theorem insertStocksLoop_all_present (pid : Nat) (ts : List String) :
    ∀ stocks, (∀ u ∈ ts, (pid, u) ∈ stocks) →
      insertStocksLoop stocks pid ts = (stocks, 0) := by
  induction ts with
  | nil =>
    intro stocks _
    rfl
  | cons t ts ih =>
    intro stocks h
    rw [insertStocksLoop_cons, if_pos (h t (by simp))]
    exact ih stocks (fun u hu => h u (by simp [hu]))

theorem insertStocksLoop_pos_iff (pid : Nat) (ts : List String) :
    ∀ stocks, 0 < (insertStocksLoop stocks pid ts).2 ↔ ∃ u ∈ ts, (pid, u) ∉ stocks := by
  induction ts with
  | nil =>
    intro stocks
    simp [insertStocksLoop]
  | cons t ts ih =>
    intro stocks
    by_cases hmem : (pid, t) ∈ stocks
    · rw [insertStocksLoop_cons, if_pos hmem, ih stocks]
      constructor
      · rintro ⟨u, hu, hnot⟩
        exact ⟨u, by simp [hu], hnot⟩
      · rintro ⟨u, hu, hnot⟩
        rcases List.mem_cons.mp hu with rfl | hu
        · exact absurd hmem hnot
        · exact ⟨u, hu, hnot⟩
    · rw [insertStocksLoop_cons, if_neg hmem]
      constructor
      · intro _
        exact ⟨t, by simp, hmem⟩
      · intro _
        exact Nat.succ_pos _

/-- Claim C10: on a mutable owned portfolio with a validated batch,
`add_stocks` returns `true` iff at least one requested ticker is not yet a
member; if every requested ticker is already a member (or the batch is
empty) it returns `false` with the store unchanged — the same `false` the
readonly and not-found failures produce. -/
theorem C10_add_stocks_result {db : DB} {p : Portfolio} {uid : Nat} {name : String}
    (hwf : WF db) (hp : p ∈ db.portfolios) (hu : p.user_id = uid) (hn : p.name = name)
    (hro : p.is_readonly = false) {tickers vts : List String}
    (hv : validateTickers tickers = some vts) :
    ((add_stocks db name uid tickers).2 = true ↔
      ∃ u ∈ vts, (p.id, u) ∉ db.portfolio_stocks)
    ∧ ((∀ u ∈ vts, (p.id, u) ∈ db.portfolio_stocks) →
        add_stocks db name uid tickers = (db, false))
    ∧ (tickers = [] → add_stocks db name uid tickers = (db, false)) := by
  have hred : add_stocks db name uid tickers
      = ({ db with portfolio_stocks := (insertStocksLoop db.portfolio_stocks p.id vts).1 },
         decide (0 < (insertStocksLoop db.portfolio_stocks p.id vts).2)) := by
    simp only [add_stocks, get_portfolio_id_eq hwf hp hu hn,
      find_portfolio_by_id hwf hp hu, hro, Bool.false_eq_true, if_false, hv]
  have hfull : (∀ u ∈ vts, (p.id, u) ∈ db.portfolio_stocks) →
      add_stocks db name uid tickers = (db, false) := by
    intro hall
    rw [hred, insertStocksLoop_all_present p.id vts db.portfolio_stocks hall]
    rfl
  refine ⟨?_, hfull, ?_⟩
  · rw [hred]
    simp only [decide_eq_true_eq]
    exact insertStocksLoop_pos_iff p.id vts db.portfolio_stocks
  · intro h0
    subst h0
    have hvts : vts = [] := by
      have : (some [] : Option (List String)) = some vts := hv
      exact (Option.some.inj this).symm
    subst hvts
    exact hfull (by simp)

theorem deleteStocksLoop_cons (stocks : List (Nat × String)) (pid : Nat)
    (t : String) (ts : List String) :
    deleteStocksLoop stocks pid (t :: ts)
      = ((deleteStocksLoop (stocks.filter (fun e => decide (¬ e = (pid, t)))) pid ts).1,
         (if (pid, t) ∈ stocks then 1 else 0)
           + (deleteStocksLoop (stocks.filter (fun e => decide (¬ e = (pid, t)))) pid ts).2) := rfl

theorem deleteStocksLoop_spec (pid : Nat) (ts : List String) :
    ∀ stocks, ts.Nodup →
      deleteStocksLoop stocks pid ts
        = (stocks.filter (fun e => decide (¬ (e.1 = pid ∧ e.2 ∈ ts))),
           (ts.filter (fun u => decide ((pid, u) ∈ stocks))).length) := by
  induction ts with
  | nil =>
    intro stocks _
    show (stocks, 0) = _
    rw [show stocks.filter (fun e => decide (¬ (e.1 = pid ∧ e.2 ∈ ([] : List String))))
        = stocks from List.filter_eq_self.mpr (fun a _ => by simp)]
    rfl
  | cons t ts ih =>
    intro stocks hnd
    rw [List.nodup_cons] at hnd
    obtain ⟨hnotin, hnd⟩ := hnd
    rw [deleteStocksLoop_cons, ih (stocks.filter (fun e => decide (¬ e = (pid, t)))) hnd]
    have hstore : (stocks.filter (fun e => decide (¬ e = (pid, t)))).filter
          (fun e => decide (¬ (e.1 = pid ∧ e.2 ∈ ts)))
        = stocks.filter (fun e => decide (¬ (e.1 = pid ∧ e.2 ∈ t :: ts))) := by
      rw [List.filter_filter]
      apply List.filter_congr
      intro e _
      rw [← Bool.decide_and, decide_eq_decide, Prod.ext_iff]
      simp only [List.mem_cons]
      tauto
    have hcount : (ts.filter (fun u =>
          decide ((pid, u) ∈ stocks.filter (fun e => decide (¬ e = (pid, t)))))).length
        = (ts.filter (fun u => decide ((pid, u) ∈ stocks))).length := by
      congr 1
      apply List.filter_congr
      intro u hu
      rw [decide_eq_decide]
      constructor
      · intro h
        exact (List.mem_filter.mp h).1
      · intro h
        refine List.mem_filter.mpr ⟨h, ?_⟩
        simp only [decide_eq_true_eq]
        intro heq
        have hut : u = t := congrArg Prod.snd heq
        exact hnotin (hut ▸ hu)
    have hhead : ((t :: ts).filter (fun u => decide ((pid, u) ∈ stocks))).length
        = (if (pid, t) ∈ stocks then 1 else 0)
          + (ts.filter (fun u => decide ((pid, u) ∈ stocks))).length := by
      rw [List.filter_cons]
      by_cases hm : (pid, t) ∈ stocks
      · rw [if_pos (by simpa using hm), if_pos hm, List.length_cons]
        omega
      · rw [if_neg (by simpa using hm), if_neg hm]
        omega
    rw [hstore, hcount, hhead]

/-- Claim C7: `remove_stocks` on any owned portfolio — the premises place no
constraint on `is_readonly`, so removal works on read-only portfolios too —
deletes exactly the validated listed tickers that are present, reports the
count of tickers actually removed, and returns `removed > 0`; when none of
the listed tickers is present the outcome is a reported zero count and
`false`, not an exception, with the store unchanged. -/
theorem C7_remove_stocks_spec {db : DB} {p : Portfolio} {uid : Nat} {name : String}
    (hwf : WF db) (hp : p ∈ db.portfolios) (hu : p.user_id = uid) (hn : p.name = name)
    {tickers vts : List String} (hv : validateTickers tickers = some vts)
    (hnd : vts.Nodup) :
    remove_stocks db name uid tickers
      = ({ db with portfolio_stocks :=
            db.portfolio_stocks.filter (fun e => decide (¬ (e.1 = p.id ∧ e.2 ∈ vts))) },
         (vts.filter (fun u => decide ((p.id, u) ∈ db.portfolio_stocks))).length,
         decide (0 < (vts.filter (fun u => decide ((p.id, u) ∈ db.portfolio_stocks))).length))
    ∧ ((∀ u ∈ vts, (p.id, u) ∉ db.portfolio_stocks) →
        remove_stocks db name uid tickers = (db, 0, false)) := by
  have hown : db.portfolios.any (fun q => decide (q.id = p.id ∧ q.user_id = uid)) = true :=
    List.any_eq_true.mpr ⟨p, hp, by simp [hu]⟩
  have hred : remove_stocks db name uid tickers
      = ({ db with portfolio_stocks := (deleteStocksLoop db.portfolio_stocks p.id vts).1 },
         (deleteStocksLoop db.portfolio_stocks p.id vts).2,
         decide (0 < (deleteStocksLoop db.portfolio_stocks p.id vts).2)) := by
    simp only [remove_stocks, get_portfolio_id_eq hwf hp hu hn, hown, if_true, hv]
  have hloop := deleteStocksLoop_spec p.id vts db.portfolio_stocks hnd
  constructor
  · rw [hred, hloop]
  · intro hall
    rw [hred, hloop]
    have hfe : db.portfolio_stocks.filter (fun e => decide (¬ (e.1 = p.id ∧ e.2 ∈ vts)))
        = db.portfolio_stocks := by
      apply List.filter_eq_self.mpr
      intro e he
      simp only [decide_eq_true_eq]
      rintro ⟨h1, h2⟩
      have he2 : (e.1, e.2) ∈ db.portfolio_stocks := he
      rw [h1] at he2
      exact hall e.2 h2 he2
    have hcf : vts.filter (fun u => decide ((p.id, u) ∈ db.portfolio_stocks)) = [] := by
      apply List.filter_eq_nil_iff.mpr
      intro u hu
      simp only [decide_eq_true_eq]
      exact hall u hu
    rw [hfe, hcf]
    rfl

/-- Claim C6 (amended): in the shared-store variant ticker removal touches
only `portfolio_stocks` — portfolio metadata survives, and this variant
caches no time series at all — while in the per-tenant variant
`delete_stock` deletes *every* cached `(ticker, date)` OHLCV row of the
removed ticker (and only rows of that ticker). -/
theorem C6_removal_cache_amended :
    (∀ (db : DB) (name : String) (uid : Nat) (ts : List String),
        ((remove_stocks db name uid ts).1).portfolios = db.portfolios)
    ∧ (∀ (st : List Point) (tkr t : String), validate_ticker tkr = some t →
        (delete_stock st tkr).1 = st.filter (fun q => decide (¬ q.ticker = t))) := by
  constructor
  · intro db name uid ts
    cases hg : get_portfolio_id_by_name db uid name with
    | none => simp only [remove_stocks, hg]
    | some pid =>
      simp only [remove_stocks, hg]
      by_cases hown : db.portfolios.any (fun q => decide (q.id = pid ∧ q.user_id = uid)) = true
      · rw [if_pos hown]
        cases hv : validateTickers ts with
        | none => rfl
        | some vts => rfl
      · rw [if_neg hown]
  · intro st tkr t hvt
    unfold delete_stock
    rw [hvt]

/-- Claim C6 — counterexample to the claim as stated: in the per-tenant
variant the `portfolios` table *is* the OHLCV cache, and `delete_stock`
removes the stored `(AAPL, 2023-01-02)` row, so a previously stored
time-series row is gone after ticker removal. -/
theorem C6_counterexample :
    c6Point ∈ [c6Point]
    ∧ (delete_stock [c6Point] "AAPL").1 = []
    ∧ c6Point ∉ (delete_stock [c6Point] "AAPL").1 := by
  exact ⟨by simp, by decide, by decide⟩

/-- Witness for C6 (amended). -/
theorem C6_removal_cache_amended_witness :
    validate_ticker "AAPL" = some "AAPL"
    ∧ (delete_stock [c6Point] "AAPL").1
        = [c6Point].filter (fun q => decide (¬ q.ticker = "AAPL")) := by
  have h := C6_removal_cache_amended.2 [c6Point] "AAPL" "AAPL" (by decide)
  exact ⟨by decide, h⟩

/-- Claim C2 (amended): a failure of the immediate fetch during
`create_portfolio` propagates out of the `get_db_cursor()` block, so the
metadata and ticker-membership inserts are rolled back: the call returns
`None` (an error report, not a warning) and the store is unchanged — no
partially created portfolio survives, for any inputs whatsoever. -/
theorem C2_create_portfolio_fetch_rollback (db : DB) (uid : Nat) (name : String)
    (tickers : List String) (dtype : DType) (period : Option String)
    (startD endD : Option Date) (interval : String) :
    create_portfolio db none uid name tickers dtype period startD endD interval
      = (db, none) := by
  simp only [create_portfolio]
  by_cases h1 : name = "" ∨ 50 < name.length
  · rw [if_pos h1]
  · rw [if_neg h1]
    cases hv : validateTickers tickers with
    | none => rfl
    | some vts => simp only [ite_self]

/-- Claim C2 — counterexample to the claim as stated: with valid inputs on
an empty store and a failing fetch, the created portfolio does *not*
persist (the store still holds no portfolio and the call reports failure);
the same inputs with a successful fetch do create it, so the rollback is
attributable to the fetch failure alone. -/
theorem C2_counterexample :
    create_portfolio ⟨[], []⟩ none 1 "core" ["AAPL"] DType.interday none
        (some ⟨2023, 1, 1⟩) (some ⟨2023, 2, 1⟩) "1d" = (⟨[], []⟩, none)
    ∧ (create_portfolio ⟨[], []⟩ none 1 "core" ["AAPL"] DType.interday none
        (some ⟨2023, 1, 1⟩) (some ⟨2023, 2, 1⟩) "1d").1.portfolios = []
    ∧ (create_portfolio ⟨[], []⟩ (some 20) 1 "core" ["AAPL"] DType.interday none
        (some ⟨2023, 1, 1⟩) (some ⟨2023, 2, 1⟩) "1d").2 = some 1 := by
  exact ⟨by decide, by decide, by decide⟩

/-- Claim C4: on an owned, interday, non-readonly portfolio,
`update_interval` rejects (returns `false`, no exception, store unchanged)
a parsed range with `start ≥ end` or with `end` after the invocation date;
on a valid range it writes the new window and commits it whether or not the
subsequent refetch succeeds — a refetch failure only triggers the printed
warning flag. -/
theorem C4_update_interval_spec {db : DB} {today : Date} {p : Portfolio} {uid : Nat}
    {name : String}
    (hwf : WF db) (hp : p ∈ db.portfolios) (hu : p.user_id = uid) (hn : p.name = name)
    (hdt : p.data_type = DType.interday) (hro : p.is_readonly = false) :
    (∀ (fetchOk : Bool) (ss es : String) (sd ed : Date),
        validate_date ss = some sd → validate_date es = some ed → dateLe ed sd = true →
        update_interval db today fetchOk name uid ss es = (db, false, false))
    ∧ (∀ (fetchOk : Bool) (ss es : String) (sd ed : Date),
        validate_date ss = some sd → validate_date es = some ed → dateLt today ed = true →
        update_interval db today fetchOk name uid ss es = (db, false, false))
    ∧ (∀ (fetchOk : Bool) (ss es : String) (sd ed : Date),
        validate_date ss = some sd → validate_date es = some ed →
        dateLe ed sd = false → dateLt today ed = false →
        update_interval db today fetchOk name uid ss es
          = (setWindow db p.id sd ed, true,
             decide (portfolioTickers db p.id ≠ []) && !fetchOk)) := by
  have hnotintra : ¬ p.data_type = DType.intraday := by
    rw [hdt]
    decide
  refine ⟨?_, ?_, ?_⟩
  · intro fetchOk ss es sd ed h1 h2 h3
    simp only [update_interval, get_portfolio_id_eq hwf hp hu hn,
      find_portfolio_by_id hwf hp hu, h1, h2]
    rw [if_neg hnotintra, if_neg (by simp [hro]), if_pos h3]
  · intro fetchOk ss es sd ed h1 h2 h3
    simp only [update_interval, get_portfolio_id_eq hwf hp hu hn,
      find_portfolio_by_id hwf hp hu, h1, h2]
    rw [if_neg hnotintra, if_neg (by simp [hro])]
    by_cases h4 : dateLe ed sd = true
    · rw [if_pos h4]
    · rw [if_neg h4, if_pos h3]
  · intro fetchOk ss es sd ed h1 h2 h3 h4
    simp only [update_interval, get_portfolio_id_eq hwf hp hu hn,
      find_portfolio_by_id hwf hp hu, h1, h2]
    rw [if_neg hnotintra, if_neg (by simp [hro]), if_neg (by simp [h3]),
      if_neg (by simp [h4])]

/-- Witness for C3: a read-only portfolio, with an invalid ticker in the
batch, still yields `(store unchanged, false)`. -/
theorem C3_add_stocks_readonly_witness :
    add_stocks wDBro "scalp" 1 ["GO1"] = (wDBro, false) :=
  @C3_add_stocks_readonly wDBro wPortRO 1 "scalp" (by decide) (by decide) rfl rfl rfl ["GO1"]

/-- Witness for C10: every requested ticker already a member gives
`(store unchanged, false)`. -/
theorem C10_add_stocks_result_witness :
    add_stocks wDBrw "core" 1 ["AAPL"] = (wDBrw, false) := by
  have h := @C10_add_stocks_result wDBrw wPortRW 1 "core" (by decide) (by decide) rfl rfl rfl
    ["AAPL"] ["AAPL"] (by decide)
  exact h.2.1 (by decide)

/-- Witness for C7: removing one present and one absent ticker deletes the
present row only and reports a count of 1. -/
theorem C7_remove_stocks_spec_witness :
    remove_stocks wDBrw "core" 1 ["AAPL", "MSFT"] = (⟨[wPortRW], []⟩, 1, true) := by
  have h := (@C7_remove_stocks_spec wDBrw wPortRW 1 "core" (by decide) (by decide) rfl rfl
    ["AAPL", "MSFT"] ["AAPL", "MSFT"] (by decide) (by decide)).1
  rw [h]
  decide

/-- Witness for C4: a reversed range is rejected with the window unchanged,
and a valid range commits the new window even when the refetch fails. -/
theorem C4_update_interval_spec_witness :
    update_interval wDBrw ⟨2023, 6, 1⟩ true "core" 1 "2023-03-01" "2023-02-01"
        = (wDBrw, false, false)
    ∧ update_interval wDBrw ⟨2023, 6, 1⟩ false "core" 1 "2023-01-05" "2023-01-20"
        = (setWindow wDBrw 2 ⟨2023, 1, 5⟩ ⟨2023, 1, 20⟩, true, true) := by
  have h := @C4_update_interval_spec wDBrw ⟨2023, 6, 1⟩ wPortRW 1 "core"
    (by decide) (by decide) rfl rfl rfl rfl
  constructor
  · exact h.1 true "2023-03-01" "2023-02-01" ⟨2023, 3, 1⟩ ⟨2023, 2, 1⟩
      (by decide) (by decide) (by decide)
  · have h2 := h.2.2 false "2023-01-05" "2023-01-20" ⟨2023, 1, 5⟩ ⟨2023, 1, 20⟩
      (by decide) (by decide) (by decide) (by decide)
    rw [h2]
    decide
